import Mathlib

/-!
Verification of the classroom polling application and the finance
calculator pages.

The poll store of `src/polling/app.py` is embedded as a state-passing
record `Store`: Python dictionaries become association lists
(`List (String × _)`, insertion ordered, looked up by the first matching
key exactly like CPython's dicts behave for the operations used here),
the voter set becomes a list of composite keys to which elements are only
ever appended when absent, and each mutating store function becomes a
Lean function from the old store to its result and the new store.
Identifier generation (`uuid.uuid4`) is external randomness; the
generated identifier is a parameter of the embedded operation.

The finance formulas of `src/pages/3_perpetuity_formula.py` and
`src/pages/4_internal_rate_of_return.py` are embedded over `ℚ`
(exact arithmetic in place of Python floats); `scipy.optimize.fsolve`
is an external collaborator of the repository (spec §1 lists the
numerical root-finding library as out of scope), so `find_irr` is
parameterised by the solver it calls, and its properties are proved for
every possible solver behaviour.
-/

namespace PollingApp

/-- Association-list lookup: the first entry whose key matches, mirroring
Python `dict.get` (returns `none` when the key is absent). -/
def dictGet {α : Type} (m : List (String × α)) (k : String) : Option α :=
  (m.find? (fun p => p.1 = k)).map (fun p => p.2)

/-- Replace the value stored at key `k` (every entry carrying `k`),
mirroring an in-place mutation of an existing dict entry. Entries with
other keys are untouched; nothing is inserted. -/
def updEntry {α : Type} (m : List (String × α)) (k : String) (v : α) : List (String × α) :=
  m.map (fun p => if p.1 = k then (k, v) else p)

/-- Python `m[k] = v`: overwrite in place when the key is present,
otherwise append a fresh entry at the end (dicts are insertion ordered). -/
def dictInsert {α : Type} (m : List (String × α)) (k : String) (v : α) : List (String × α) :=
  if (m.find? (fun p => p.1 = k)).isSome then updEntry m k v else m ++ [(k, v)]

theorem dictGet_nil {α : Type} (k : String) : dictGet ([] : List (String × α)) k = none := rfl

theorem dictGet_cons {α : Type} (hd : String × α) (tl : List (String × α)) (k : String) :
    dictGet (hd :: tl) k = if hd.1 = k then some hd.2 else dictGet tl k := by
  by_cases h : hd.1 = k <;> simp [dictGet, List.find?_cons, h]

theorem dictGet_updEntry {α : Type} (m : List (String × α)) (k k' : String) (v : α) :
    dictGet (updEntry m k v) k' =
      if k' = k then (dictGet m k).map (fun _ => v) else dictGet m k' := by
  induction m with
  | nil => simp [updEntry, dictGet_nil]
  | cons hd tl ih =>
      have hcons : updEntry (hd :: tl) k v = (if hd.1 = k then (k, v) else hd) :: updEntry tl k v := by
        simp [updEntry]
      by_cases h1 : hd.1 = k
      · by_cases h2 : k' = k
        · subst h2
          simp [hcons, dictGet_cons, h1]
        · have h3 : ¬ hd.1 = k' := by rw [h1]; exact fun hh => h2 hh.symm
          have h4 : ¬ k = k' := fun hh => h2 hh.symm
          simp [hcons, dictGet_cons, h1, h2, h3, h4, ih]
      · by_cases h2 : k' = k
        · subst h2
          simp [hcons, dictGet_cons, h1, ih]
        · by_cases h3 : hd.1 = k'
          · simp [hcons, dictGet_cons, h1, h2, h3]
          · simp [hcons, dictGet_cons, h1, h2, h3, ih]

theorem dictGet_dictInsert {α : Type} (m : List (String × α)) (k k' : String) (v : α) :
    dictGet (dictInsert m k v) k' = if k' = k then some v else dictGet m k' := by
  unfold dictInsert
  by_cases hs : (m.find? (fun p => p.1 = k)).isSome
  · rw [if_pos hs, dictGet_updEntry]
    by_cases hk' : k' = k
    · subst hk'
      obtain ⟨p, hp⟩ := Option.isSome_iff_exists.mp hs
      simp [dictGet, hp]
    · simp [hk']
  · rw [if_neg hs]
    have hnone : m.find? (fun p => p.1 = k) = none := Option.not_isSome_iff_eq_none.mp hs
    by_cases hk' : k' = k
    · subst hk'
      unfold dictGet
      rw [List.find?_append, hnone]
      simp [List.find?]
    · unfold dictGet
      rw [List.find?_append]
      have htail : (([(k, v)] : List (String × α)).find? (fun p => p.1 = k')) = none := by
        have hne : ¬ ((k, v) : String × α).1 = k' := fun hh => hk' hh.symm
        simp [List.find?, hne]
      rw [htail]
      simp [hk']

/-- Keys are unchanged by an in-place update of the values. -/
theorem updEntry_map_fst {α : Type} (m : List (String × α)) (k : String) (v : α) :
    (updEntry m k v).map Prod.fst = m.map Prod.fst := by
  induction m with
  | nil => rfl
  | cons hd tl ih =>
      by_cases h : hd.1 = k <;> simp [updEntry, h] at ih ⊢ <;> simpa [h] using ih

/-- `Poll` dataclass of `src/polling/app.py`: a single poll question.
`votes` is the option-label → count dictionary. -/
structure Poll where
  id : String
  question : String
  options : List String
  votes : List (String × Nat)
  is_open : Bool
deriving DecidableEq, Repr

/-- `PollGroup` dataclass: a group of related polls referenced by id. -/
structure PollGroup where
  id : String
  name : String
  poll_ids : List String
  is_open : Bool
deriving DecidableEq, Repr

/-- `Poll.__post_init__`'s `{opt: 0 for opt in self.options}`: a dict
comprehension keyed in first-occurrence order; a duplicate option
overwrites the (identical) zero already stored. -/
def initVotes (options : List String) : List (String × Nat) :=
  options.foldl (fun m opt => dictInsert m opt 0) []

/-- The process-wide shared state: the poll store, the poll-group store
and the voter set (`get_poll_store`, `get_poll_group_store`,
`get_voter_store`). -/
structure Store where
  polls : List (String × Poll)
  groups : List (String × PollGroup)
  voters : List String
deriving DecidableEq, Repr

/-- `get_poll`: retrieve a poll by id. -/
def get_poll (s : Store) (poll_id : String) : Option Poll :=
  dictGet s.polls poll_id

/-- `get_poll_group`: retrieve a poll group by id. -/
def get_poll_group (s : Store) (group_id : String) : Option PollGroup :=
  dictGet s.groups group_id

/-- The `Poll(...)` construction performed by `create_poll`; `is_open`
defaults to `False`, the votes dict comes from `__post_init__`. -/
def mkPoll (id question : String) (options : List String) : Poll :=
  { id := id, question := question, options := options
    votes := initVotes options, is_open := false }

/-- `create_poll`: build the new poll and store it under its id. The
freshly generated id (`str(uuid.uuid4())[:8]`) is passed in as `poll_id`. -/
def create_poll (s : Store) (poll_id question : String) (options : List String) :
    Poll × Store :=
  let poll := mkPoll poll_id question options
  (poll, { s with polls := dictInsert s.polls poll_id poll })

/-- The composite voter-record key `f"{session_id}_{poll_id}"`. -/
def voterKey (session_id poll_id : String) : String :=
  session_id ++ "_" ++ poll_id

/-- `has_voted`: whether the composite key is in the voter set. -/
def has_voted (s : Store) (poll_id session_id : String) : Bool :=
  s.voters.contains (voterKey session_id poll_id)

/-- `poll.votes[option] += 1` on the votes dictionary. -/
def incVote (votes : List (String × Nat)) (option : String) : List (String × Nat) :=
  votes.map (fun p => if p.1 = option then (p.1, p.2 + 1) else p)

/-- `cast_vote`: returns the boolean result of the Python function
together with the store after the call. A `false` result leaves the
store untouched; a `true` result increments the chosen option's count
and records the voter key. -/
def cast_vote (s : Store) (poll_id option session_id : String) : Bool × Store :=
  let key := voterKey session_id poll_id
  if s.voters.contains key then (false, s)
  else
    match get_poll s poll_id with
    | some poll =>
        if (dictGet poll.votes option).isSome then
          (true,
            { s with
              polls := updEntry s.polls poll_id { poll with votes := incVote poll.votes option }
              voters := s.voters ++ [key] })
        else (false, s)
    | none => (false, s)

/-- `toggle_poll`: flip a poll's `is_open`, returning the new state
(`False` and no change when the id is absent). -/
def toggle_poll (s : Store) (poll_id : String) : Bool × Store :=
  match get_poll s poll_id with
  | some poll =>
      let p := { poll with is_open := !poll.is_open }
      (p.is_open, { s with polls := updEntry s.polls poll_id p })
  | none => (false, s)

/-- `create_poll_group`: build the group and store it under its id; the
generated id is passed in as `group_id`. -/
def create_poll_group (s : Store) (group_id name : String) (poll_ids : List String) :
    PollGroup × Store :=
  let g : PollGroup := { id := group_id, name := name, poll_ids := poll_ids, is_open := false }
  (g, { s with groups := dictInsert s.groups group_id g })

/-- One iteration of `toggle_poll_group`'s member loop: set the member
poll's `is_open` to `b` when the poll exists, else do nothing. -/
def setMemberOpen (b : Bool) (s : Store) (poll_id : String) : Store :=
  match get_poll s poll_id with
  | some poll => { s with polls := updEntry s.polls poll_id { poll with is_open := b } }
  | none => s

/-- `toggle_poll_group`: flip the group's `is_open` and cascade the new
value onto every member poll that exists. -/
def toggle_poll_group (s : Store) (group_id : String) : Bool × Store :=
  match get_poll_group s group_id with
  | some g =>
      let g2 := { g with is_open := !g.is_open }
      let s1 := { s with groups := updEntry s.groups group_id g2 }
      (g2.is_open, g2.poll_ids.foldl (setMemberOpen g2.is_open) s1)
  | none => (false, s)

/-- `clear_all_polls`: empty all three shared containers. -/
def clear_all_polls (_s : Store) : Store :=
  { polls := [], groups := [], voters := [] }

/-- The five renderable views of `main`, plus the login form that
`check_password` shows when the session is not yet authenticated. -/
inductive View where
  | groupResults (group_id : String)
  | groupVoting (group_id : String)
  | resultsDisplay (poll_id : String)
  | studentVoting (poll_id : String)
  | teacherDashboard
  | teacherLogin
deriving DecidableEq, Repr

/-- Python truthiness of `params.get(name)`: `None` and the empty string
are falsy, every other string is truthy. -/
def truthy : Option String → Bool
  | none => false
  | some s => !(s == "")

/-- The `if`/`elif` chain of `main`, routing on the `poll`, `group` and
`results` query parameters; the final branch renders the dashboard only
when `check_password` succeeds, i.e. when `st.session_state` already
carries the `authenticated` flag, and the login form otherwise. -/
def route (poll_id group_id show_results : Option String) (authenticated : Bool) : View :=
  if truthy group_id && truthy show_results then View.groupResults (group_id.getD "")
  else if truthy group_id then View.groupVoting (group_id.getD "")
  else if truthy poll_id && truthy show_results then View.resultsDisplay (poll_id.getD "")
  else if truthy poll_id then View.studentVoting (poll_id.getD "")
  else if authenticated then View.teacherDashboard
  else View.teacherLogin

/-- Modelled from the spec's §4.2 wording of the selection precedence,
highest first: `group` & `results` → GroupResults; `group` alone →
GroupVoting; `poll` & `results` → ResultsDisplay; `poll` alone →
StudentVoting; neither → TeacherDashboard gated by the password check. -/
def routeSpec (poll_id group_id show_results : Option String) (authenticated : Bool) : View :=
  match truthy group_id, truthy show_results with
  | true, true => View.groupResults (group_id.getD "")
  | true, false => View.groupVoting (group_id.getD "")
  | false, _ =>
      match truthy poll_id, truthy show_results with
      | true, true => View.resultsDisplay (poll_id.getD "")
      | true, false => View.studentVoting (poll_id.getD "")
      | false, _ => if authenticated then View.teacherDashboard else View.teacherLogin

/-- The scan at the top of `render_group_voting`: the index of the first
member poll the session has not voted on (`none` once every member poll
has been answered). -/
def next_question_index (s : Store) (g : PollGroup) (session_id : String) : Option Nat :=
  g.poll_ids.findIdx? (fun pid => !(has_voted s pid session_id))

/-- The possible outcomes of `render_group_voting` for a request. -/
inductive GroupVotingView where
  | groupNotFound
  | groupClosed
  | completed
  | pollMissing
  | question (index : Nat) (poll_id : String)
deriving DecidableEq, Repr

/-- `render_group_voting`, reduced to which outcome it renders: group
lookup, open check, the first-unanswered scan, then the poll lookup for
the selected question. -/
def render_group_voting (s : Store) (group_id session_id : String) : GroupVotingView :=
  match get_poll_group s group_id with
  | none => GroupVotingView.groupNotFound
  | some g =>
      if !g.is_open then GroupVotingView.groupClosed
      else
        match next_question_index s g session_id with
        | none => GroupVotingView.completed
        | some i =>
            let pid := (g.poll_ids.get? i).getD ""
            match get_poll s pid with
            | none => GroupVotingView.pollMissing
            | some _ => GroupVotingView.question i pid

end PollingApp

namespace FinancePages

/-- `pv_perpetuity = cash_flow / r` of `src/pages/3_perpetuity_formula.py`,
over exact rationals. -/
def pv_perpetuity (cash_flow r : ℚ) : ℚ := cash_flow / r

/-- The `n`-th entry of `cumulative_pv = np.cumsum(cash_flow / (1+r)**period_numbers)`
with `period_numbers = 1..`: the present value of the first `n` payments. -/
def cumulative_pv (cash_flow r : ℚ) (n : ℕ) : ℚ :=
  ∑ k in Finset.range n, cash_flow / (1 + r) ^ (k + 1)

/-- The loop body of `calculate_npv` in
`src/pages/4_internal_rate_of_return.py`: `npv += cf / (1 + rate) ** t`
over `enumerate(cash_flows)`, with `t` starting at the given offset. -/
def npvFrom (t : ℕ) (cash_flows : List ℚ) (rate : ℚ) : ℚ :=
  match cash_flows with
  | [] => 0
  | cf :: rest => cf / (1 + rate) ^ t + npvFrom (t + 1) rest rate

/-- `calculate_npv(rate, cash_flows)`. -/
def calculate_npv (rate : ℚ) (cash_flows : List ℚ) : ℚ :=
  npvFrom 0 cash_flows rate

/-- The fixed initial guesses `[0.1, 0.5, 1.0, -0.5]` tried by `find_irr`. -/
def irr_guesses : List ℚ := [1/10, 1/2, 1, -(1/2)]

/-- One iteration of the `find_irr` loop: call the root solver from the
given initial guess, accept the candidate only when it drives the NPV
within `0.01` of zero, and drop it when it lies within `0.001` of an
already-accepted solution. -/
def irr_step (cash_flows : List ℚ) (solver : ℚ → List ℚ → ℚ) (sols : List ℚ) (guess : ℚ) :
    List ℚ :=
  let irr := solver guess cash_flows
  if |calculate_npv irr cash_flows| < 1/100 then
    if sols.any (fun e => |irr - e| < 1/1000) then sols
    else sols ++ [irr]
  else sols

/-- `find_irr(cash_flows)`. `scipy.optimize.fsolve` is the out-of-scope
root-finding collaborator; it enters as the `solver` parameter (initial
guess and cash flows in, candidate root out). -/
def find_irr (solver : ℚ → List ℚ → ℚ) (cash_flows : List ℚ) : List ℚ :=
  irr_guesses.foldl (irr_step cash_flows solver) []

/-- The default cash-flow vector of the IRR page: `[-100, 30, 30, 30, 30]`. -/
def demo_cash_flows : List ℚ := [-100, 30, 30, 30, 30]

end FinancePages

namespace PollingApp

theorem foldl_dictInsert_zero (opts : List String) (m : List (String × Nat)) (o : String) :
    dictGet (opts.foldl (fun acc opt => dictInsert acc opt 0) m) o =
      if o ∈ opts then some 0 else dictGet m o := by
  induction opts generalizing m with
  | nil => simp
  | cons a l ih =>
      rw [List.foldl_cons, ih]
      by_cases h : o ∈ l
      · simp [h]
      · rw [dictGet_dictInsert]
        by_cases h2 : o = a <;> simp [h, h2]

theorem dictGet_initVotes (opts : List String) (o : String) :
    dictGet (initVotes opts) o = if o ∈ opts then some 0 else none := by
  simpa [initVotes] using foldl_dictInsert_zero opts [] o

/-- C6: for every combination of the `poll`, `group` and `results` query
parameters, the router of `main` selects exactly the view the spec's
precedence list prescribes: group & results → group results, group alone
→ group voting, poll & results → single-poll results, poll alone →
student voting, neither → the teacher dashboard gated by the password
check. -/
theorem route_matches_spec_precedence :
    ∀ (poll_id group_id show_results : Option String) (authenticated : Bool),
      route poll_id group_id show_results authenticated =
        routeSpec poll_id group_id show_results authenticated := by
  intro p g r a
  unfold route routeSpec
  cases hg : truthy g <;> cases hr : truthy r <;> cases hp : truthy p <;> cases a <;>
    simp [hg, hr, hp]

/-- A store holding two polls whose ids collide under the voter-key
encoding once paired with the right sessions. -/
def collisionStore : Store :=
  { polls := [("b_c", mkPoll "b_c" "Q1" ["A", "B"]), ("c", mkPoll "c" "Q2" ["A", "B"])]
    groups := []
    voters := [] }

/-- C10: the voter-record key is the plain concatenation
`session ++ "_" ++ poll`, which is not injective: the pairs
(session "a", poll "b_c") and (session "a_b", poll "c") share the key
"a_b_c", so once the first pair has voted, the second pair's very first
vote is rejected with no state change and `has_voted` reports the second
pair as having voted. -/
theorem voter_key_collision :
    voterKey "a" "b_c" = voterKey "a_b" "c"
    ∧ ("a", "b_c") ≠ ("a_b", "c")
    ∧ (cast_vote collisionStore "b_c" "A" "a").1 = true
    ∧ cast_vote (cast_vote collisionStore "b_c" "A" "a").2 "c" "A" "a_b"
        = (false, (cast_vote collisionStore "b_c" "A" "a").2)
    ∧ has_voted (cast_vote collisionStore "b_c" "A" "a").2 "c" "a_b" = true := by
  decide

/-- C5: `create_poll` returns a poll whose options list is the input
verbatim (order preserved, duplicates kept), whose vote counts are zero
for every option, and which starts closed. -/
theorem create_poll_spec (s : Store) (poll_id question : String) (options : List String) :
    (create_poll s poll_id question options).1.options = options
    ∧ (∀ o ∈ options, dictGet (create_poll s poll_id question options).1.votes o = some 0)
    ∧ (create_poll s poll_id question options).1.is_open = false := by
  refine ⟨rfl, ?_, rfl⟩
  intro o ho
  simp [create_poll, mkPoll, dictGet_initVotes, ho]

theorem create_poll_spec_witness :
    ("A" : String) ∈ ["A", "B"]
    ∧ (create_poll ⟨[], [], []⟩ "p1" "Q" ["A", "B"]).1.options = ["A", "B"]
    ∧ dictGet (create_poll ⟨[], [], []⟩ "p1" "Q" ["A", "B"]).1.votes "A" = some 0
    ∧ (create_poll ⟨[], [], []⟩ "p1" "Q" ["A", "B"]).1.is_open = false := by
  obtain ⟨h1, h2, h3⟩ := create_poll_spec ⟨[], [], []⟩ "p1" "Q" ["A", "B"]
  exact ⟨by decide, h1, h2 "A" (by decide), h3⟩

theorem dictGet_incVote (votes : List (String × Nat)) (option o : String) :
    dictGet (incVote votes option) o =
      if o = option then (dictGet votes option).map (fun v => v + 1) else dictGet votes o := by
  induction votes with
  | nil => simp [incVote, dictGet_nil]
  | cons hd tl ih =>
      have hcons : incVote (hd :: tl) option =
          (if hd.1 = option then (hd.1, hd.2 + 1) else hd) :: incVote tl option := by
        simp [incVote]
      by_cases h1 : hd.1 = option
      · by_cases h2 : o = option
        · subst h2
          simp [hcons, dictGet_cons, h1]
        · have h3 : ¬ hd.1 = o := by rw [h1]; exact fun hh => h2 hh.symm
          have h4 : ¬ option = o := fun hh => h2 hh.symm
          simp [hcons, dictGet_cons, h1, h2, h3, h4, ih]
      · by_cases h2 : o = option
        · subst h2
          simp [hcons, dictGet_cons, h1, ih]
        · by_cases h3 : hd.1 = o <;> simp [hcons, dictGet_cons, h1, h2, h3, ih]

/-- The accepted branch of `cast_vote` in one equation. -/
theorem cast_vote_accepted (s : Store) (poll_id option session_id : String) (poll : Poll)
    (hkey : s.voters.contains (voterKey session_id poll_id) = false)
    (hpoll : get_poll s poll_id = some poll)
    (hopt : (dictGet poll.votes option).isSome = true) :
    cast_vote s poll_id option session_id =
      (true,
        { s with
          polls := updEntry s.polls poll_id { poll with votes := incVote poll.votes option }
          voters := s.voters ++ [voterKey session_id poll_id] }) := by
  have hnotmem : voterKey session_id poll_id ∉ s.voters := by simpa using hkey
  simp [cast_vote, hnotmem, hpoll, hopt]

/-- C1: when a session holds no voter record for a poll, a `cast_vote`
call with a valid option on an existing poll succeeds — it returns
`True`, increments exactly that option's count by one and appends the
pair's voter-record key — and afterwards any second call by the same
session on the same poll, with any option, returns `False` and leaves
the whole store (every poll's counts and the voter-record set)
unchanged. -/
theorem cast_vote_once (s : Store) (poll_id option session_id : String) (poll : Poll)
    (hnew : has_voted s poll_id session_id = false)
    (hpoll : get_poll s poll_id = some poll)
    (hopt : (dictGet poll.votes option).isSome = true) :
    (cast_vote s poll_id option session_id).1 = true
    ∧ (∀ v, dictGet poll.votes option = some v →
        ∃ p2, get_poll (cast_vote s poll_id option session_id).2 poll_id = some p2
          ∧ dictGet p2.votes option = some (v + 1))
    ∧ (cast_vote s poll_id option session_id).2.voters
        = s.voters ++ [voterKey session_id poll_id]
    ∧ (∀ option2,
        cast_vote (cast_vote s poll_id option session_id).2 poll_id option2 session_id
          = (false, (cast_vote s poll_id option session_id).2)) := by
  have hkey : s.voters.contains (voterKey session_id poll_id) = false := by
    simpa [has_voted] using hnew
  have hres := cast_vote_accepted s poll_id option session_id poll hkey hpoll hopt
  rw [hres]
  refine ⟨rfl, ?_, rfl, ?_⟩
  · intro v hv
    refine ⟨{ poll with votes := incVote poll.votes option }, ?_, ?_⟩
    · show dictGet (updEntry s.polls poll_id _) poll_id = _
      rw [dictGet_updEntry]
      simp only [if_pos rfl]
      have hget : dictGet s.polls poll_id = some poll := hpoll
      rw [hget]
      rfl
    · show dictGet (incVote poll.votes option) option = some (v + 1)
      rw [dictGet_incVote]
      simp [hv]
  · intro option2
    simp only [cast_vote]
    rw [if_pos (by simp)]

/-- A one-poll store with no votes yet, for concrete instantiations. -/
def freshStore : Store :=
  { polls := [("p1", mkPoll "p1" "Q" ["A", "B"])], groups := [], voters := [] }

theorem cast_vote_once_witness :
    has_voted freshStore "p1" "s" = false
    ∧ get_poll freshStore "p1" = some (mkPoll "p1" "Q" ["A", "B"])
    ∧ (dictGet (mkPoll "p1" "Q" ["A", "B"]).votes "A").isSome = true
    ∧ (cast_vote freshStore "p1" "A" "s").1 = true
    ∧ cast_vote (cast_vote freshStore "p1" "A" "s").2 "p1" "B" "s"
        = (false, (cast_vote freshStore "p1" "A" "s").2) := by
  have h := cast_vote_once freshStore "p1" "A" "s" (mkPoll "p1" "Q" ["A", "B"])
    (by decide) (by decide) (by decide)
  exact ⟨by decide, by decide, by decide, h.1, h.2.2.2 "B"⟩

/-- A store in which session "s1" already holds a voter record for the
(existing) poll "p1". -/
def votedStore : Store :=
  { polls := [("p1", mkPoll "p1" "Q" ["A", "B"])], groups := []
    voters := [voterKey "s1" "p1"] }

/-- C2 counterexample: the "rejected — invalid" result is NOT distinct
from the "rejected — already voted" result. Voting on the nonexistent
poll "zz" (an invalid call by a fresh session) returns exactly the same
`False` that session "s1"'s duplicate vote on "p1" returns — the caller
cannot tell the two rejections apart from the returned value. -/
theorem cast_vote_rejections_indistinct :
    get_poll votedStore "zz" = none
    ∧ has_voted votedStore "p1" "s1" = true
    ∧ (cast_vote votedStore "zz" "A" "s2").1 = (cast_vote votedStore "p1" "A" "s1").1
    ∧ (cast_vote votedStore "p1" "A" "s1").1 = false := by
  decide

/-- C2 (amended): an invalid `cast_vote` call — poll id absent from the
store, or option not a key of the poll's votes dict — returns the same
boolean rejection `False` as the already-voted case (the two rejections
are indistinguishable in the returned value), but it modifies no poll's
vote counts and adds no voter-record entry, so a subsequent retry by the
same session with a valid option succeeds. -/
theorem cast_vote_invalid_no_record (s : Store) (poll_id option session_id : String)
    (hinv : (get_poll s poll_id).bind (fun poll => dictGet poll.votes option) = none) :
    cast_vote s poll_id option session_id = (false, s)
    ∧ (∀ option2 poll, get_poll s poll_id = some poll →
        (dictGet poll.votes option2).isSome = true →
        has_voted s poll_id session_id = false →
        (cast_vote s poll_id option2 session_id).1 = true) := by
  constructor
  · by_cases hkey : voterKey session_id poll_id ∈ s.voters
    · simp [cast_vote, hkey]
    · cases hpoll : get_poll s poll_id with
      | none => simp [cast_vote, hkey, hpoll]
      | some poll =>
          rw [hpoll] at hinv
          simp only [Option.some_bind] at hinv
          simp [cast_vote, hkey, hpoll, hinv]
  · intro option2 poll hpoll hopt hnew
    have hkey : s.voters.contains (voterKey session_id poll_id) = false := by
      simpa [has_voted] using hnew
    rw [cast_vote_accepted s poll_id option2 session_id poll hkey hpoll hopt]

theorem cast_vote_invalid_no_record_witness :
    (get_poll freshStore "p1").bind (fun poll => dictGet poll.votes "Z") = none
    ∧ cast_vote freshStore "p1" "Z" "s" = (false, freshStore)
    ∧ (cast_vote freshStore "p1" "A" "s").1 = true := by
  have h := cast_vote_invalid_no_record freshStore "p1" "Z" "s" (by decide)
  exact ⟨by decide, h.1,
    h.2 "A" (mkPoll "p1" "Q" ["A", "B"]) (by decide) (by decide) (by decide)⟩

theorem get_poll_setMemberOpen (b : Bool) (s : Store) (a pid : String) :
    get_poll (setMemberOpen b s a) pid =
      if pid = a then (get_poll s pid).map (fun p => { p with is_open := b })
      else get_poll s pid := by
  unfold setMemberOpen
  cases hp : get_poll s a with
  | none =>
      by_cases h : pid = a
      · subst h
        simp [hp]
      · simp [h]
  | some poll =>
      show dictGet (updEntry s.polls a _) pid = _
      rw [dictGet_updEntry]
      by_cases h : pid = a
      · subst h
        have hget : dictGet s.polls pid = some poll := hp
        rw [if_pos rfl, if_pos rfl, hget, hp]
        rfl
      · rw [if_neg h, if_neg h]
        rfl

theorem groups_setMemberOpen (b : Bool) (s : Store) (a : String) :
    (setMemberOpen b s a).groups = s.groups := by
  unfold setMemberOpen
  cases get_poll s a <;> rfl

theorem get_poll_foldl_setMemberOpen (b : Bool) (l : List String) (s : Store) (pid : String) :
    get_poll (l.foldl (setMemberOpen b) s) pid =
      if pid ∈ l then (get_poll s pid).map (fun p => { p with is_open := b })
      else get_poll s pid := by
  induction l generalizing s with
  | nil => simp
  | cons a l ih =>
      rw [List.foldl_cons, ih, get_poll_setMemberOpen]
      by_cases hmem : pid ∈ l
      · by_cases ha : pid = a <;>
          cases hgp : get_poll s pid <;>
          simp [hmem, ha, hgp]
      · by_cases ha : pid = a
        · subst ha
          simp [hmem]
        · simp [hmem, ha]

theorem groups_foldl_setMemberOpen (b : Bool) (l : List String) (s : Store) :
    (l.foldl (setMemberOpen b) s).groups = s.groups := by
  induction l generalizing s with
  | nil => rfl
  | cons a l ih => rw [List.foldl_cons, ih, groups_setMemberOpen]

/-- The store after `toggle_poll_group` has updated the group entry but
before the member-poll loop has run. -/
def cascadeStart (s : Store) (group_id : String) (g : PollGroup) : Store :=
  { s with groups := updEntry s.groups group_id { g with is_open := !g.is_open } }

theorem get_poll_cascadeStart (s : Store) (group_id : String) (g : PollGroup) (pid : String) :
    get_poll (cascadeStart s group_id g) pid = get_poll s pid := rfl

/-- C3: for a group present in the store, `toggle_poll_group` flips the
group's `is_open` flag (returning the new value) and sets the `is_open`
flag of every member poll that exists in the poll store to that new
value, overwriting whatever per-poll state was there; member poll ids
absent from the poll store are silently skipped (they stay absent and no
error arises). -/
theorem toggle_poll_group_cascades (s : Store) (group_id : String) (g : PollGroup)
    (hg : get_poll_group s group_id = some g) :
    (toggle_poll_group s group_id).1 = !g.is_open
    ∧ get_poll_group (toggle_poll_group s group_id).2 group_id
        = some { g with is_open := !g.is_open }
    ∧ (∀ pid ∈ g.poll_ids, ∀ p, get_poll s pid = some p →
        get_poll (toggle_poll_group s group_id).2 pid = some { p with is_open := !g.is_open })
    ∧ (∀ pid ∈ g.poll_ids, get_poll s pid = none →
        get_poll (toggle_poll_group s group_id).2 pid = none) := by
  have hres : toggle_poll_group s group_id =
      (!g.is_open,
        g.poll_ids.foldl (setMemberOpen (!g.is_open)) (cascadeStart s group_id g)) := by
    simp [toggle_poll_group, hg, cascadeStart]
  have hfst : (toggle_poll_group s group_id).1 = !g.is_open := by rw [hres]
  have hsnd : (toggle_poll_group s group_id).2 =
      g.poll_ids.foldl (setMemberOpen (!g.is_open)) (cascadeStart s group_id g) := by
    rw [hres]
  refine ⟨hfst, ?_, ?_, ?_⟩
  · rw [hsnd]
    show dictGet (g.poll_ids.foldl (setMemberOpen (!g.is_open)) (cascadeStart s group_id g)).groups
        group_id = _
    rw [groups_foldl_setMemberOpen]
    show dictGet (updEntry s.groups group_id _) group_id = _
    rw [dictGet_updEntry]
    have hget : dictGet s.groups group_id = some g := hg
    simp [hget]
  · intro pid hmem p hp
    rw [hsnd, get_poll_foldl_setMemberOpen, if_pos hmem, get_poll_cascadeStart, hp]
    rfl
  · intro pid hmem hp
    rw [hsnd, get_poll_foldl_setMemberOpen, if_pos hmem, get_poll_cascadeStart, hp]
    rfl

/-- A store with one open and one closed poll, and a group referencing
both of them plus the dangling id "px". -/
def groupStore : Store :=
  { polls := [("p1", mkPoll "p1" "Q1" ["A", "B"]),
              ("p2", { mkPoll "p2" "Q2" ["A", "B"] with is_open := true })]
    groups := [("g1", { id := "g1", name := "Ex", poll_ids := ["p1", "p2", "px"]
                        is_open := false })]
    voters := [] }

theorem toggle_poll_group_cascades_witness :
    get_poll_group groupStore "g1"
      = some { id := "g1", name := "Ex", poll_ids := ["p1", "p2", "px"], is_open := false }
    ∧ (toggle_poll_group groupStore "g1").1 = true
    ∧ get_poll (toggle_poll_group groupStore "g1").2 "p1"
        = some { mkPoll "p1" "Q1" ["A", "B"] with is_open := true }
    ∧ get_poll (toggle_poll_group groupStore "g1").2 "p2"
        = some { mkPoll "p2" "Q2" ["A", "B"] with is_open := true }
    ∧ get_poll (toggle_poll_group groupStore "g1").2 "px" = none := by
  have h := toggle_poll_group_cascades groupStore "g1"
    { id := "g1", name := "Ex", poll_ids := ["p1", "p2", "px"], is_open := false } (by decide)
  refine ⟨by decide, h.1, ?_, ?_, h.2.2.2 "px" (by decide) (by decide)⟩
  · exact h.2.2.1 "p1" (by decide) (mkPoll "p1" "Q1" ["A", "B"]) (by decide)
  · exact h.2.2.1 "p2" (by decide) ({ mkPoll "p2" "Q2" ["A", "B"] with is_open := true })
      (by decide)

theorem findIdx?_threshold {α : Type} (p : α → Bool) (l : List α) (k : ℕ)
    (hk : k ≤ l.length)
    (h : ∀ i (hi : i < l.length), p (l.get ⟨i, hi⟩) = decide (k ≤ i)) :
    l.findIdx? p = if k < l.length then some k else none := by
  induction l generalizing k with
  | nil => simp
  | cons a t ih =>
      have hcons : (a :: t).findIdx? p =
          if p a then some 0 else (t.findIdx? p).map (· + 1) := by
        simp [List.findIdx?_cons]
      rw [hcons]
      cases k with
      | zero =>
          have ha : p a = true := by simpa using h 0 (by simp)
          simp [ha]
      | succ k2 =>
          have ha : p a = false := by simpa using h 0 (by simp)
          have hk2 : k2 ≤ t.length := Nat.succ_le_succ_iff.mp (by simpa using hk)
          have h2 : ∀ i (hi : i < t.length), p (t.get ⟨i, hi⟩) = decide (k2 ≤ i) := by
            intro i hi
            have hcast := h (i + 1) (by simpa using Nat.succ_lt_succ hi)
            simpa [Nat.succ_le_succ_iff] using hcast
          rw [if_neg (by simp [ha]), ih k2 hk2 h2]
          by_cases hlt : k2 < t.length
          · rw [if_pos hlt, if_pos (by simpa using Nat.succ_lt_succ hlt)]
            rfl
          · rw [if_neg hlt, if_neg (fun hc => hlt (Nat.succ_lt_succ_iff.mp (by simpa using hc)))]
            rfl

/-- C7: in an open group whose member list has length `n`, a session
whose voter records cover exactly the first `k` member polls is shown
the poll at index `k` as the next question (for `k < n`, provided that
poll exists in the store), and the completion view instead of any
question when `k = n`. -/
theorem group_sequencer (s : Store) (group_id session_id : String) (g : PollGroup) (k : ℕ)
    (hg : get_poll_group s group_id = some g)
    (hopen : g.is_open = true)
    (hk : k ≤ g.poll_ids.length)
    (hcov : ∀ i (hi : i < g.poll_ids.length),
        has_voted s (g.poll_ids.get ⟨i, hi⟩) session_id = decide (i < k)) :
    next_question_index s g session_id = (if k < g.poll_ids.length then some k else none)
    ∧ (k = g.poll_ids.length →
        render_group_voting s group_id session_id = GroupVotingView.completed)
    ∧ (∀ hlt : k < g.poll_ids.length, ∀ p,
        get_poll s (g.poll_ids.get ⟨k, hlt⟩) = some p →
        render_group_voting s group_id session_id
          = GroupVotingView.question k (g.poll_ids.get ⟨k, hlt⟩)) := by
  have hidx : next_question_index s g session_id =
      (if k < g.poll_ids.length then some k else none) := by
    unfold next_question_index
    apply findIdx?_threshold _ _ k hk
    intro i hi
    rw [hcov i hi]
    by_cases hik : i < k
    · simp [hik, Nat.not_le_of_lt hik]
    · simp [hik, Nat.le_of_not_lt hik]
  refine ⟨hidx, ?_, ?_⟩
  · intro hkn
    have hnone : next_question_index s g session_id = none := by
      rw [hidx, if_neg (by omega)]
    unfold render_group_voting
    rw [hg]
    simp [hopen, hnone]
  · intro hlt p hp
    have hsome : next_question_index s g session_id = some k := by
      rw [hidx, if_pos hlt]
    have hgetq : (g.poll_ids.get? k).getD "" = g.poll_ids.get ⟨k, hlt⟩ := by
      rw [List.get?_eq_get hlt]
      rfl
    unfold render_group_voting
    rw [hg]
    simp only [hopen, Bool.not_true, Bool.false_eq_true, if_false, hsome, hgetq, hp]

/-- A store with an open two-question group in which session "s" has
answered exactly the first question. -/
def midGroupStore : Store :=
  { polls := [("p1", { mkPoll "p1" "Q1" ["A", "B"] with is_open := true }),
              ("p2", { mkPoll "p2" "Q2" ["A", "B"] with is_open := true })]
    groups := [("g1", { id := "g1", name := "Ex", poll_ids := ["p1", "p2"], is_open := true })]
    voters := [voterKey "s" "p1"] }

theorem group_sequencer_witness :
    (∀ i (hi : i < 2), has_voted midGroupStore ((["p1", "p2"] : List String).get ⟨i, hi⟩) "s"
        = decide (i < 1))
    ∧ next_question_index midGroupStore
        { id := "g1", name := "Ex", poll_ids := ["p1", "p2"], is_open := true } "s" = some 1
    ∧ render_group_voting midGroupStore "g1" "s" = GroupVotingView.question 1 "p2" := by
  have h := group_sequencer midGroupStore "g1" "s"
    { id := "g1", name := "Ex", poll_ids := ["p1", "p2"], is_open := true } 1
    (by decide) (by decide) (by decide) (by decide)
  refine ⟨by decide, ?_, ?_⟩
  · rw [h.1]
    decide
  · exact h.2.2 (by decide) ({ mkPoll "p2" "Q2" ["A", "B"] with is_open := true }) (by decide)

/-- The keys of a poll's vote-count dictionary. -/
def pollKeys (p : Poll) : List String := p.votes.map Prod.fst

/-- The per-poll invariant of §3 of the spec: the key set of the
vote-count mapping equals the option list exactly (as a set). -/
def pollInv (p : Poll) : Prop := pollKeys p ⊆ p.options ∧ p.options ⊆ pollKeys p

/-- Every poll held in the store satisfies the per-poll invariant. -/
def storeInv (s : Store) : Prop := ∀ pr ∈ s.polls, pollInv pr.2

/-- Between two stores, no poll's vote count for any option decreased. -/
def voteLe (s s2 : Store) : Prop :=
  ∀ pid p p2 o, get_poll s pid = some p → get_poll s2 pid = some p2 →
    (dictGet p.votes o).getD 0 ≤ (dictGet p2.votes o).getD 0

theorem voteLe_of_get_poll_eq {s s2 : Store}
    (h : ∀ pid, get_poll s2 pid = get_poll s pid) : voteLe s s2 := by
  intro pid p p2 o h1 h2
  rw [h pid, h1] at h2
  cases h2
  exact le_refl _

theorem voteLe_refl (s : Store) : voteLe s s :=
  voteLe_of_get_poll_eq (fun _ => rfl)

theorem dictGet_isSome_iff {α : Type} (m : List (String × α)) (k : String) :
    (dictGet m k).isSome = true ↔ k ∈ m.map Prod.fst := by
  induction m with
  | nil => simp [dictGet_nil]
  | cons hd tl ih =>
      rw [dictGet_cons]
      by_cases h : hd.1 = k
      · simp [h]
      · simp [h, Ne.symm h, ih]

theorem incVote_map_fst (votes : List (String × Nat)) (opt : String) :
    (incVote votes opt).map Prod.fst = votes.map Prod.fst := by
  induction votes with
  | nil => rfl
  | cons hd tl ih =>
      have hcons : incVote (hd :: tl) opt =
          (if hd.1 = opt then (hd.1, hd.2 + 1) else hd) :: incVote tl opt := by
        simp [incVote]
      rw [hcons, List.map_cons, List.map_cons, ih]
      by_cases h : hd.1 = opt <;> simp [h]

theorem pollInv_of_keys_eq {p p2 : Poll} (hk : pollKeys p2 = pollKeys p)
    (ho : p2.options = p.options) (h : pollInv p) : pollInv p2 := by
  unfold pollInv
  rw [hk, ho]
  exact h

theorem get_poll_mem {s : Store} {pid : String} {poll : Poll} (h : get_poll s pid = some poll) :
    ∃ e ∈ s.polls, e.2 = poll := by
  unfold get_poll dictGet at h
  cases hf : s.polls.find? (fun p => p.1 = pid) with
  | none => rw [hf] at h; simp at h
  | some e =>
      rw [hf] at h
      simp at h
      exact ⟨e, List.mem_of_find?_eq_some hf, h⟩

theorem pollInv_of_get_poll {s : Store} {pid : String} {poll : Poll}
    (hs : storeInv s) (h : get_poll s pid = some poll) : pollInv poll := by
  obtain ⟨e, he, hev⟩ := get_poll_mem h
  rw [← hev]
  exact hs e he

theorem storeInv_updEntry {m : List (String × Poll)} {k : String} {p2 : Poll}
    (hm : ∀ pr ∈ m, pollInv pr.2) (hp2 : pollInv p2) :
    ∀ pr ∈ updEntry m k p2, pollInv pr.2 := by
  intro pr hpr
  unfold updEntry at hpr
  obtain ⟨q, hq, hqe⟩ := List.mem_map.mp hpr
  by_cases h : q.1 = k
  · rw [← hqe]
    simp only [h, if_pos rfl]
    exact hp2
  · rw [← hqe]
    simp only [if_neg h]
    exact hm q hq

theorem pollInv_mkPoll (poll_id question : String) (options : List String) :
    pollInv (mkPoll poll_id question options) := by
  constructor
  · intro o ho
    have hsome : (dictGet (initVotes options) o).isSome = true :=
      (dictGet_isSome_iff (initVotes options) o).mpr ho
    rw [dictGet_initVotes] at hsome
    by_cases h : o ∈ options
    · exact h
    · rw [if_neg h] at hsome
      simp at hsome
  · intro o ho
    have ho2 : o ∈ options := ho
    apply (dictGet_isSome_iff (initVotes options) o).mp
    rw [dictGet_initVotes, if_pos ho2]
    rfl

/-- Flipping only `is_open` keeps the per-poll invariant. -/
theorem pollInv_setOpen {poll : Poll} (b : Bool) (h : pollInv poll) :
    pollInv { poll with is_open := b } := by
  unfold pollInv pollKeys at h ⊢
  exact h

/-- Incrementing one option's count keeps the per-poll invariant. -/
theorem pollInv_incVote {poll : Poll} (option : String) (h : pollInv poll) :
    pollInv { poll with votes := incVote poll.votes option } := by
  unfold pollInv pollKeys at h ⊢
  rw [incVote_map_fst]
  exact h

theorem storeInv_setMemberOpen {t : Store} (b : Bool) (a : String) (ht : storeInv t) :
    storeInv (setMemberOpen b t a) := by
  unfold setMemberOpen
  cases hp : get_poll t a with
  | none => exact ht
  | some poll =>
      intro pr hpr
      refine storeInv_updEntry ht ?_ pr hpr
      exact pollInv_setOpen b (pollInv_of_get_poll ht hp)

theorem storeInv_foldl_setMemberOpen {t : Store} (b : Bool) (l : List String)
    (ht : storeInv t) : storeInv (l.foldl (setMemberOpen b) t) := by
  induction l generalizing t with
  | nil => exact ht
  | cons a l ih => exact ih (storeInv_setMemberOpen b a ht)

/-- C4: the per-poll invariant — vote-count keys coincide with the
option list (also when the option list contains duplicates), and vote
counts never decrease — is established by `create_poll` and preserved
by `cast_vote`, `toggle_poll`, `toggle_poll_group`, `create_poll_group`
and `clear_all_polls`. -/
theorem poll_invariant_preserved :
    (∀ s poll_id question options, pollInv (create_poll s poll_id question options).1)
    ∧ (∀ s poll_id option session_id, storeInv s →
        storeInv (cast_vote s poll_id option session_id).2
        ∧ voteLe s (cast_vote s poll_id option session_id).2)
    ∧ (∀ s poll_id, storeInv s →
        storeInv (toggle_poll s poll_id).2 ∧ voteLe s (toggle_poll s poll_id).2)
    ∧ (∀ s group_id, storeInv s →
        storeInv (toggle_poll_group s group_id).2 ∧ voteLe s (toggle_poll_group s group_id).2)
    ∧ (∀ s group_id name poll_ids, storeInv s →
        storeInv (create_poll_group s group_id name poll_ids).2
        ∧ voteLe s (create_poll_group s group_id name poll_ids).2)
    ∧ (∀ s, storeInv (clear_all_polls s) ∧ voteLe s (clear_all_polls s)) := by
  refine ⟨?_, ?_, ?_, ?_, ?_, ?_⟩
  · intro s poll_id question options
    exact pollInv_mkPoll poll_id question options
  · intro s poll_id option session_id hs
    by_cases hkey : voterKey session_id poll_id ∈ s.voters
    · have hr : cast_vote s poll_id option session_id = (false, s) := by
        simp [cast_vote, hkey]
      rw [hr]
      exact ⟨hs, voteLe_refl s⟩
    · cases hpoll : get_poll s poll_id with
      | none =>
          have hr : cast_vote s poll_id option session_id = (false, s) := by
            simp [cast_vote, hkey, hpoll]
          rw [hr]
          exact ⟨hs, voteLe_refl s⟩
      | some poll =>
          by_cases hopt : (dictGet poll.votes option).isSome = true
          · have hkey2 : s.voters.contains (voterKey session_id poll_id) = false := by
              simpa using hkey
            have hsnd : (cast_vote s poll_id option session_id).2 =
                { s with
                  polls := updEntry s.polls poll_id
                    { poll with votes := incVote poll.votes option }
                  voters := s.voters ++ [voterKey session_id poll_id] } := by
              rw [cast_vote_accepted s poll_id option session_id poll hkey2 hpoll hopt]
            rw [hsnd]
            constructor
            · intro pr hpr
              refine storeInv_updEntry hs ?_ pr hpr
              exact pollInv_incVote option (pollInv_of_get_poll hs hpoll)
            · intro pid p p2 o h1 h2
              have h2get : dictGet (updEntry s.polls poll_id
                  { poll with votes := incVote poll.votes option }) pid = some p2 := h2
              rw [dictGet_updEntry] at h2get
              by_cases hpid : pid = poll_id
              · have hpp : p = poll := by
                  have hcmp : some p = some poll := h1.symm.trans (by rw [hpid]; exact hpoll)
                  exact Option.some.inj hcmp
                rw [if_pos hpid] at h2get
                have hget : dictGet s.polls poll_id = some poll := hpoll
                rw [hget, Option.map_some'] at h2get
                have hp2 : p2 = { poll with votes := incVote poll.votes option } :=
                  (Option.some.inj h2get).symm
                rw [hpp, hp2]
                show (dictGet poll.votes o).getD 0 ≤ (dictGet (incVote poll.votes option) o).getD 0
                rw [dictGet_incVote]
                by_cases ho : o = option
                · subst ho
                  cases dictGet poll.votes o <;> simp
                · rw [if_neg ho]
              · rw [if_neg hpid] at h2get
                have h1get : dictGet s.polls pid = some p := h1
                rw [h1get] at h2get
                cases h2get
                exact le_refl _
          · have hr : cast_vote s poll_id option session_id = (false, s) := by
              simp [cast_vote, hkey, hpoll, hopt]
            rw [hr]
            exact ⟨hs, voteLe_refl s⟩
  · intro s poll_id hs
    cases hpoll : get_poll s poll_id with
    | none =>
        have hr : toggle_poll s poll_id = (false, s) := by simp [toggle_poll, hpoll]
        rw [hr]
        exact ⟨hs, voteLe_refl s⟩
    | some poll =>
        have hsnd : (toggle_poll s poll_id).2 =
            { s with polls := updEntry s.polls poll_id { poll with is_open := !poll.is_open } } := by
          simp [toggle_poll, hpoll]
        rw [hsnd]
        constructor
        · intro pr hpr
          exact storeInv_updEntry hs
            (pollInv_setOpen (!poll.is_open) (pollInv_of_get_poll hs hpoll)) pr hpr
        · intro pid p p2 o h1 h2
          have h2get : dictGet (updEntry s.polls poll_id
              { poll with is_open := !poll.is_open }) pid = some p2 := h2
          rw [dictGet_updEntry] at h2get
          by_cases hpid : pid = poll_id
          · have hpp : p = poll := by
              have hcmp : some p = some poll := h1.symm.trans (by rw [hpid]; exact hpoll)
              exact Option.some.inj hcmp
            rw [if_pos hpid] at h2get
            have hget : dictGet s.polls poll_id = some poll := hpoll
            rw [hget, Option.map_some'] at h2get
            have hp2 : p2 = { poll with is_open := !poll.is_open } :=
              (Option.some.inj h2get).symm
            rw [hpp, hp2]
          · rw [if_neg hpid] at h2get
            have h1get : dictGet s.polls pid = some p := h1
            rw [h1get] at h2get
            cases h2get
            exact le_refl _
  · intro s group_id hs
    cases hg : get_poll_group s group_id with
    | none =>
        have hr : toggle_poll_group s group_id = (false, s) := by
          simp [toggle_poll_group, hg]
        rw [hr]
        exact ⟨hs, voteLe_refl s⟩
    | some g =>
        have hr : (toggle_poll_group s group_id).2 =
            g.poll_ids.foldl (setMemberOpen (!g.is_open)) (cascadeStart s group_id g) := by
          simp [toggle_poll_group, hg, cascadeStart]
        rw [hr]
        constructor
        · refine storeInv_foldl_setMemberOpen (!g.is_open) g.poll_ids ?_
          exact hs
        · intro pid p p2 o h1 h2
          rw [get_poll_foldl_setMemberOpen, get_poll_cascadeStart] at h2
          by_cases hmem : pid ∈ g.poll_ids
          · rw [if_pos hmem, h1] at h2
            cases h2
            exact le_refl _
          · rw [if_neg hmem, h1] at h2
            cases h2
            exact le_refl _
  · intro s group_id name poll_ids hs
    constructor
    · exact hs
    · exact voteLe_of_get_poll_eq (fun _ => rfl)
  · intro s
    constructor
    · intro pr hpr
      simp [clear_all_polls] at hpr
    · intro pid p p2 o h1 h2
      simp [clear_all_polls, get_poll, dictGet] at h2

instance (p : Poll) : Decidable (pollInv p) :=
  decidable_of_iff (pollKeys p ⊆ p.options ∧ p.options ⊆ pollKeys p) Iff.rfl

instance (s : Store) : Decidable (storeInv s) :=
  decidable_of_iff (∀ pr ∈ s.polls, pollInv pr.2) Iff.rfl

theorem poll_invariant_preserved_witness :
    pollInv (create_poll freshStore "p9" "Q" ["A", "A", "B"]).1
    ∧ storeInv freshStore
    ∧ storeInv (cast_vote freshStore "p1" "A" "s").2
    ∧ voteLe freshStore (cast_vote freshStore "p1" "A" "s").2 := by
  have h1 := poll_invariant_preserved.1 freshStore "p9" "Q" ["A", "A", "B"]
  have h2 := poll_invariant_preserved.2.1 freshStore "p1" "A" "s" (by decide)
  exact ⟨h1, by decide, h2.1, h2.2⟩

end PollingApp

namespace FinancePages

theorem cumulative_pv_succ (cash_flow r : ℚ) (n : ℕ) :
    cumulative_pv cash_flow r (n + 1) =
      cumulative_pv cash_flow r n + cash_flow / (1 + r) ^ (n + 1) := by
  unfold cumulative_pv
  rw [Finset.sum_range_succ]

theorem cumulative_pv_closed (cash_flow r : ℚ) (hr : 0 < r) (n : ℕ) :
    cumulative_pv cash_flow r n = cash_flow / r * (1 - (1 / (1 + r)) ^ n) := by
  have h1r : (0:ℚ) < 1 + r := by linarith
  have h1r2 : (1:ℚ) + r ≠ 0 := ne_of_gt h1r
  have hr2 : r ≠ 0 := ne_of_gt hr
  induction n with
  | zero => simp [cumulative_pv]
  | succ n ih =>
      rw [cumulative_pv_succ, ih]
      have hpow : ((1:ℚ) + r) ^ n ≠ 0 := pow_ne_zero n h1r2
      field_simp
      ring

/-- C8 (amended): for C ≥ 0 and r > 0 the computed perpetuity present
value is exactly C/r; the cumulative present value of the first n
payments is strictly increasing in n whenever C > 0 (for C = 0 it is
constantly zero), and it is bounded above by C/r for every C ≥ 0. -/
theorem perpetuity_properties (cash_flow r : ℚ) (hC : 0 ≤ cash_flow) (hr : 0 < r) :
    pv_perpetuity cash_flow r = cash_flow / r
    ∧ (0 < cash_flow → StrictMono (fun n => cumulative_pv cash_flow r n))
    ∧ (∀ n, cumulative_pv cash_flow r n ≤ pv_perpetuity cash_flow r) := by
  have h1r : (0:ℚ) < 1 + r := by linarith
  refine ⟨rfl, ?_, ?_⟩
  · intro hCpos
    apply strictMono_nat_of_lt_succ
    intro n
    show cumulative_pv cash_flow r n < cumulative_pv cash_flow r (n + 1)
    rw [cumulative_pv_succ]
    have hterm : 0 < cash_flow / (1 + r) ^ (n + 1) :=
      div_pos hCpos (pow_pos h1r (n + 1))
    linarith
  · intro n
    rw [cumulative_pv_closed cash_flow r hr n]
    unfold pv_perpetuity
    have hx : (0:ℚ) ≤ (1 / (1 + r)) ^ n := by positivity
    have hCr : (0:ℚ) ≤ cash_flow / r := div_nonneg hC (le_of_lt hr)
    have hprod : (0:ℚ) ≤ cash_flow / r * (1 / (1 + r)) ^ n := mul_nonneg hCr hx
    have hexp : cash_flow / r * (1 - (1 / (1 + r)) ^ n) =
        cash_flow / r - cash_flow / r * (1 / (1 + r)) ^ n := by ring
    rw [hexp]
    linarith

theorem perpetuity_properties_witness :
    (0:ℚ) ≤ 100 ∧ (0:ℚ) < 1/20
    ∧ pv_perpetuity 100 (1/20) = 100 / (1/20)
    ∧ cumulative_pv 100 (1/20) 3 ≤ pv_perpetuity 100 (1/20) := by
  have h := perpetuity_properties 100 (1/20) (by norm_num) (by norm_num)
  exact ⟨by norm_num, by norm_num, h.1, h.2.2 3⟩

/-- C8 counterexample: the claim quantifies over every C ≥ 0, but at the
admissible input C = 0, r = 1 the cumulative present value is constant
(the value for 1 period equals the value for 2 periods), hence not
strictly increasing in n. -/
theorem cumulative_pv_constant_at_zero_cashflow :
    (0:ℚ) ≤ 0 ∧ (0:ℚ) < 1 ∧ cumulative_pv 0 1 1 = cumulative_pv 0 1 2 := by
  refine ⟨le_refl 0, by norm_num, ?_⟩
  simp [cumulative_pv]

theorem npv_demo (r : ℚ) :
    calculate_npv r demo_cash_flows =
      -100 + 30 / (1 + r) + 30 / (1 + r) ^ 2 + 30 / (1 + r) ^ 3 + 30 / (1 + r) ^ 4 := by
  show npvFrom 0 demo_cash_flows r = _
  simp [demo_cash_flows, npvFrom]
  ring

theorem npv_demo_strictAnti {r1 r2 : ℚ} (h1 : -1 < r1) (h12 : r1 < r2) :
    calculate_npv r2 demo_cash_flows < calculate_npv r1 demo_cash_flows := by
  rw [npv_demo, npv_demo]
  have hy1 : (0:ℚ) < 1 + r1 := by linarith
  have hy2 : (0:ℚ) < 1 + r2 := by linarith
  have hlt : (1:ℚ) + r1 < 1 + r2 := by linarith
  have t1 : (30:ℚ) / (1 + r2) < 30 / (1 + r1) :=
    div_lt_div_of_pos_left (by norm_num) hy1 hlt
  have t2 : (30:ℚ) / (1 + r2) ^ 2 < 30 / (1 + r1) ^ 2 :=
    div_lt_div_of_pos_left (by norm_num) (pow_pos hy1 2)
      (pow_lt_pow_left₀ hlt (le_of_lt hy1) (by norm_num))
  have t3 : (30:ℚ) / (1 + r2) ^ 3 < 30 / (1 + r1) ^ 3 :=
    div_lt_div_of_pos_left (by norm_num) (pow_pos hy1 3)
      (pow_lt_pow_left₀ hlt (le_of_lt hy1) (by norm_num))
  have t4 : (30:ℚ) / (1 + r2) ^ 4 < 30 / (1 + r1) ^ 4 :=
    div_lt_div_of_pos_left (by norm_num) (pow_pos hy1 4)
      (pow_lt_pow_left₀ hlt (le_of_lt hy1) (by norm_num))
  linarith

/-- Any rate above −100% whose NPV on the demo cash flows lies within
the acceptance tolerance is trapped in a bracket of width 1/2000 around
the unique root. -/
theorem npv_demo_band {r : ℚ} (hr : -1 < r)
    (h : |calculate_npv r demo_cash_flows| < 1/100) :
    767/10000 < r ∧ r < 193/2500 := by
  have habs := abs_lt.mp h
  constructor
  · by_contra hc
    push_neg at hc
    have hmono : calculate_npv (767/10000) demo_cash_flows ≤ calculate_npv r demo_cash_flows := by
      rcases eq_or_lt_of_le hc with he | hl
      · rw [he]
      · exact le_of_lt (npv_demo_strictAnti hr hl)
    have hval : (1:ℚ)/100 < calculate_npv (767/10000) demo_cash_flows := by
      rw [npv_demo]
      norm_num
    linarith [habs.2]
  · by_contra hc
    push_neg at hc
    have hmono : calculate_npv r demo_cash_flows ≤ calculate_npv (193/2500) demo_cash_flows := by
      rcases eq_or_lt_of_le hc with he | hl
      · rw [← he]
      · exact le_of_lt (npv_demo_strictAnti (by norm_num) hl)
    have hval : calculate_npv (193/2500) demo_cash_flows < -(1/100) := by
      rw [npv_demo]
      norm_num
    linarith [habs.1]

theorem irr_step_eq_or_append (cash_flows : List ℚ) (solver : ℚ → List ℚ → ℚ)
    (sols : List ℚ) (guess : ℚ) :
    irr_step cash_flows solver sols guess = sols
    ∨ (irr_step cash_flows solver sols guess = sols ++ [solver guess cash_flows]
        ∧ |calculate_npv (solver guess cash_flows) cash_flows| < 1/100
        ∧ ∀ e ∈ sols, (1:ℚ)/1000 ≤ |solver guess cash_flows - e|) := by
  unfold irr_step
  by_cases hT : |calculate_npv (solver guess cash_flows) cash_flows| < 1/100
  · rw [if_pos hT]
    by_cases hD : sols.any (fun e => |solver guess cash_flows - e| < 1/1000)
    · left
      rw [if_pos hD]
    · right
      refine ⟨by rw [if_neg hD], hT, ?_⟩
      intro e he
      refine le_of_not_lt (fun hcon => ?_)
      exact hD (List.any_eq_true.mpr ⟨e, he, by simpa using hcon⟩)
  · left
    rw [if_neg hT]

theorem irr_step_ne_nil (cash_flows : List ℚ) (solver : ℚ → List ℚ → ℚ)
    (sols : List ℚ) (guess : ℚ) (h : sols ≠ []) :
    irr_step cash_flows solver sols guess ≠ [] := by
  rcases irr_step_eq_or_append cash_flows solver sols guess with he | ⟨he, _, _⟩ <;>
    rw [he] <;> simp [h]

theorem irr_step_ne_nil_of_hit (cash_flows : List ℚ) (solver : ℚ → List ℚ → ℚ)
    (sols : List ℚ) (guess : ℚ)
    (h : |calculate_npv (solver guess cash_flows) cash_flows| < 1/100) :
    irr_step cash_flows solver sols guess ≠ [] := by
  unfold irr_step
  rw [if_pos h]
  by_cases hD : sols.any (fun e => |solver guess cash_flows - e| < 1/1000)
  · rw [if_pos hD]
    obtain ⟨e, he, _⟩ := List.any_eq_true.mp hD
    exact List.ne_nil_of_mem he
  · rw [if_neg hD]
    simp

theorem irr_fold_tolerance (cash_flows : List ℚ) (solver : ℚ → List ℚ → ℚ)
    (gs : List ℚ) (acc : List ℚ)
    (hacc : ∀ x ∈ acc, |calculate_npv x cash_flows| < 1/100) :
    ∀ x ∈ gs.foldl (irr_step cash_flows solver) acc, |calculate_npv x cash_flows| < 1/100 := by
  induction gs generalizing acc with
  | nil => exact hacc
  | cons g gs ih =>
      rw [List.foldl_cons]
      apply ih
      rcases irr_step_eq_or_append cash_flows solver acc g with he | ⟨he, hT, _⟩
      · rw [he]; exact hacc
      · rw [he]
        intro x hx
        rcases List.mem_append.mp hx with hx | hx
        · exact hacc x hx
        · rw [List.mem_singleton.mp hx]
          exact hT

theorem irr_fold_pairwise (cash_flows : List ℚ) (solver : ℚ → List ℚ → ℚ)
    (gs : List ℚ) (acc : List ℚ)
    (hacc : acc.Pairwise (fun a b => (1:ℚ)/1000 ≤ |a - b|)) :
    (gs.foldl (irr_step cash_flows solver) acc).Pairwise (fun a b => (1:ℚ)/1000 ≤ |a - b|) := by
  induction gs generalizing acc with
  | nil => exact hacc
  | cons g gs ih =>
      rw [List.foldl_cons]
      apply ih
      rcases irr_step_eq_or_append cash_flows solver acc g with he | ⟨he, _, hfar⟩
      · rw [he]; exact hacc
      · rw [he]
        rw [List.pairwise_append]
        refine ⟨hacc, List.pairwise_singleton _ _, ?_⟩
        intro a ha b hb
        rw [List.mem_singleton.mp hb, abs_sub_comm]
        exact hfar a ha

theorem irr_fold_ne_nil (cash_flows : List ℚ) (solver : ℚ → List ℚ → ℚ)
    (gs : List ℚ) (acc : List ℚ) (h : acc ≠ []) :
    gs.foldl (irr_step cash_flows solver) acc ≠ [] := by
  induction gs generalizing acc with
  | nil => exact h
  | cons g gs ih =>
      rw [List.foldl_cons]
      exact ih _ (irr_step_ne_nil cash_flows solver acc g h)

theorem irr_fold_ne_nil_of_hit (cash_flows : List ℚ) (solver : ℚ → List ℚ → ℚ)
    (gs : List ℚ) (acc : List ℚ)
    (h : ∃ g ∈ gs, |calculate_npv (solver g cash_flows) cash_flows| < 1/100) :
    gs.foldl (irr_step cash_flows solver) acc ≠ [] := by
  induction gs generalizing acc with
  | nil => simp at h
  | cons g gs ih =>
      rw [List.foldl_cons]
      rcases h with ⟨g2, hg2, hhit⟩
      rcases List.mem_cons.mp hg2 with he | hmem
      · subst he
        exact irr_fold_ne_nil cash_flows solver gs _
          (irr_step_ne_nil_of_hit cash_flows solver acc g2 hhit)
      · exact ih _ ⟨g2, hmem, hhit⟩

theorem irr_fold_miss (cash_flows : List ℚ) (solver : ℚ → List ℚ → ℚ)
    (gs : List ℚ) (acc : List ℚ)
    (h : ∀ g ∈ gs, ¬(|calculate_npv (solver g cash_flows) cash_flows| < 1/100)) :
    gs.foldl (irr_step cash_flows solver) acc = acc := by
  induction gs generalizing acc with
  | nil => rfl
  | cons g gs ih =>
      rw [List.foldl_cons]
      have hstep : irr_step cash_flows solver acc g = acc := by
        unfold irr_step
        rw [if_neg (h g (List.mem_cons_self g gs))]
      rw [hstep]
      exact ih _ (fun g2 hg2 => h g2 (List.mem_cons_of_mem g hg2))

/-- C9: for the cash-flow vector [-100, 30, 30, 30, 30] and any
behaviour of the external root solver, `find_irr` returns only values
driving the NPV within 0.01 of zero; returned values are pairwise at
least 0.001 apart (near-duplicates are deduplicated), and any two
returned roots above −100% coincide, so no second distinct root in the
scanned range is reported; whenever some initial guess converges, a
root within tolerance is returned, and when no guess converges the
result is the empty list rather than an error. -/
theorem find_irr_demo (solver : ℚ → List ℚ → ℚ) :
    (∀ x ∈ find_irr solver demo_cash_flows, |calculate_npv x demo_cash_flows| < 1/100)
    ∧ (find_irr solver demo_cash_flows).Pairwise (fun a b => (1:ℚ)/1000 ≤ |a - b|)
    ∧ (∀ r1 ∈ find_irr solver demo_cash_flows, ∀ r2 ∈ find_irr solver demo_cash_flows,
        -1 < r1 → -1 < r2 → r1 = r2)
    ∧ ((∃ g ∈ irr_guesses, |calculate_npv (solver g demo_cash_flows) demo_cash_flows| < 1/100) →
        ∃ x ∈ find_irr solver demo_cash_flows, |calculate_npv x demo_cash_flows| < 1/100)
    ∧ ((∀ g ∈ irr_guesses,
          ¬(|calculate_npv (solver g demo_cash_flows) demo_cash_flows| < 1/100)) →
        find_irr solver demo_cash_flows = []) := by
  have htol : ∀ x ∈ find_irr solver demo_cash_flows,
      |calculate_npv x demo_cash_flows| < 1/100 :=
    irr_fold_tolerance demo_cash_flows solver irr_guesses [] (by simp)
  have hpw : (find_irr solver demo_cash_flows).Pairwise
      (fun a b => (1:ℚ)/1000 ≤ |a - b|) :=
    irr_fold_pairwise demo_cash_flows solver irr_guesses [] (by simp)
  refine ⟨htol, hpw, ?_, ?_, ?_⟩
  · intro r1 h1 r2 h2 hr1 hr2
    by_contra hne
    have hband1 := npv_demo_band hr1 (htol r1 h1)
    have hband2 := npv_demo_band hr2 (htol r2 h2)
    have hclose : |r1 - r2| < 1/1000 := by
      rw [abs_lt]
      constructor <;> linarith [hband1.1, hband1.2, hband2.1, hband2.2]
    have hfar : (1:ℚ)/1000 ≤ |r1 - r2| :=
      List.Pairwise.forall (fun x y hxy => by rwa [abs_sub_comm]) hpw h1 h2 hne
    linarith
  · intro hex
    have hne := irr_fold_ne_nil_of_hit demo_cash_flows solver irr_guesses [] hex
    obtain ⟨x, hx⟩ := List.exists_mem_of_ne_nil _ hne
    exact ⟨x, hx, htol x hx⟩
  · intro hmiss
    exact irr_fold_miss demo_cash_flows solver irr_guesses [] hmiss

/-- A stand-in for the external solver that converges from the first
initial guess to a rational approximation of the demo vector's IRR and
fails elsewhere. -/
def demoSolver (guess : ℚ) (_cash_flows : List ℚ) : ℚ :=
  if guess = 1/10 then 771/10000 else 2

theorem find_irr_demo_witness :
    (∃ g ∈ irr_guesses,
      |calculate_npv (demoSolver g demo_cash_flows) demo_cash_flows| < 1/100)
    ∧ ∃ x ∈ find_irr demoSolver demo_cash_flows,
        |calculate_npv x demo_cash_flows| < 1/100 := by
  have hroot : |calculate_npv ((771:ℚ)/10000) demo_cash_flows| < 1/100 := by
    rw [npv_demo, abs_lt]
    constructor <;> norm_num
  have hex : ∃ g ∈ irr_guesses,
      |calculate_npv (demoSolver g demo_cash_flows) demo_cash_flows| < 1/100 := by
    refine ⟨1/10, by simp [irr_guesses], ?_⟩
    simpa [demoSolver] using hroot
  exact ⟨hex, (find_irr_demo demoSolver).2.2.2.1 hex⟩

end FinancePages
